import Mathlib

/-!
# Verification of the trakr copy-trading engine core

Shallow embedding of the signal-to-close pipeline of the `trakr` repository:
the position store (`src/positions.js`), the buy detector (`src/buyDetector.js`,
dominant variant), the multi-RPC broadcaster (`src/txSender.js`), the executor
(`src/executor.js`), the pump-portal venue client (`src/pumpPortalClient.js`)
and the watcher (`src/watcher.js` variant with settlement timeout).

JavaScript numbers are modelled as `JsNum` (a finite rational, `NaN`, or a
signed infinity); this keeps the `typeof x === 'number'` / `Number.isFinite(x)`
distinction that the code branches on, without modelling IEEE rounding (none of
the verified properties depend on rounding, and `-0` is identified with `0`).
JavaScript objects used as keyed maps are modelled as association lists with
JS-object assignment semantics (overwrite in place, insert at the end).
-/

namespace Trakr

/-- Model of a JavaScript `number` value: a finite value (as an exact
rational), `NaN`, `Infinity` or `-Infinity`. -/
inductive JsNum where
  | fin (q : ℚ)
  | nan
  | inf
  | ninf
deriving DecidableEq, Repr

namespace JsNum

/-- JS subtraction `a - b` on numbers (IEEE special-value rules; finite
arithmetic is taken exact). -/
def sub : JsNum → JsNum → JsNum
  | fin a, fin b => fin (a - b)
  | nan, _ => nan
  | _, nan => nan
  | inf, inf => nan
  | inf, _ => inf
  | ninf, ninf => nan
  | ninf, _ => ninf
  | fin _, inf => ninf
  | fin _, ninf => inf

/-- JS division `a / b` on numbers. Division of a nonzero finite value by
zero yields a signed infinity, `0 / 0` yields `NaN` (the sign of `-0` is not
modelled). -/
def div : JsNum → JsNum → JsNum
  | fin a, fin b =>
      if b = 0 then (if a > 0 then inf else if a < 0 then ninf else nan)
      else fin (a / b)
  | nan, _ => nan
  | _, nan => nan
  | inf, inf => nan
  | inf, ninf => nan
  | ninf, inf => nan
  | ninf, ninf => nan
  | inf, fin b => if b < 0 then ninf else inf
  | ninf, fin b => if b < 0 then inf else ninf
  | fin _, inf => fin 0
  | fin _, ninf => fin 0

/-- JS multiplication `a * b` on numbers. -/
def mul : JsNum → JsNum → JsNum
  | fin a, fin b => fin (a * b)
  | nan, _ => nan
  | _, nan => nan
  | inf, inf => inf
  | inf, ninf => ninf
  | ninf, inf => ninf
  | ninf, ninf => inf
  | inf, fin b => if b > 0 then inf else if b < 0 then ninf else nan
  | ninf, fin b => if b > 0 then ninf else if b < 0 then inf else nan
  | fin a, inf => if a > 0 then inf else if a < 0 then ninf else nan
  | fin a, ninf => if a > 0 then ninf else if a < 0 then inf else nan

/-- `Number.isFinite` on a modelled number. -/
def isFinite : JsNum → Bool
  | fin _ => true
  | _ => false

end JsNum

/-- `x || y` on an optional string operand `x`, where the empty string is
falsy (JS truthiness for strings). Returns the string when truthy. -/
def strTruthy : Option String → Option String
  | some s => if s = "" then none else some s
  | none => none

/-- `x || d` for a string-valued expression with a string default. -/
def jsOrStr (x : Option String) (d : String) : String :=
  match strTruthy x with
  | some s => s
  | none => d

/-! ## JS objects as keyed maps

`state.open` in `positions.js` and the various per-mint maps are JS objects
(or `Map`s) keyed by strings.  We model them as association lists with JS
assignment semantics. -/

/-- Read `obj[k]` (or `map.get(k)`): value at the first entry with key `k`. -/
def lookupKey : List (String × α) → String → Option α
  | [], _ => none
  | p :: t, k => if p.1 = k then some p.2 else lookupKey t k

/-- Write `obj[k] = v` (or `map.set(k, v)`): overwrite in place when the key
is present, otherwise append (JS objects keep insertion order; a JS object
never holds a key twice, so replacing the first occurrence is exact). -/
def setKey : List (String × α) → String → α → List (String × α)
  | [], k, v => [(k, v)]
  | p :: t, k, v => if p.1 = k then (k, v) :: t else p :: setKey t k v

/-- `delete obj[k]` (or `map.delete(k)`). -/
def eraseKey : List (String × α) → String → List (String × α)
  | [], _ => []
  | p :: t, k => if p.1 = k then eraseKey t k else p :: eraseKey t k

/-- The keys of the map are pairwise distinct (true of every JS object). -/
def KeysNodup (l : List (String × α)) : Prop :=
  (l.map Prod.fst).Nodup

theorem lookupKey_setKey_self (l : List (String × α)) (k : String) (v : α) :
    lookupKey (setKey l k v) k = some v := by
  induction l with
  | nil => simp [setKey, lookupKey]
  | cons p t ih =>
    by_cases hp : p.1 = k
    · simp [setKey, lookupKey, hp]
    · simp [setKey, lookupKey, hp, ih]

theorem lookupKey_setKey_ne (l : List (String × α)) (k k' : String) (v : α)
    (h : k' ≠ k) : lookupKey (setKey l k v) k' = lookupKey l k' := by
  have hk : ¬ (k = k') := fun hh => h hh.symm
  induction l with
  | nil => simp [setKey, lookupKey, hk]
  | cons p t ih =>
    by_cases hp : p.1 = k
    · simp [setKey, lookupKey, hp, hk]
    · by_cases hp' : p.1 = k'
      · have hk' : ¬ (k' = k) := h
        simp [setKey, lookupKey, hp, hp', hk']
      · simp [setKey, lookupKey, hp, hp', ih]

theorem lookupKey_eraseKey_self (l : List (String × α)) (k : String) :
    lookupKey (eraseKey l k) k = none := by
  induction l with
  | nil => simp [eraseKey, lookupKey]
  | cons p t ih =>
    by_cases hp : p.1 = k
    · simp [eraseKey, hp, ih]
    · simp [eraseKey, lookupKey, hp, ih]

theorem lookupKey_eraseKey_ne (l : List (String × α)) (k k' : String)
    (h : k' ≠ k) : lookupKey (eraseKey l k) k' = lookupKey l k' := by
  have hk : ¬ (k = k') := fun hh => h hh.symm
  induction l with
  | nil => simp [eraseKey]
  | cons p t ih =>
    by_cases hp : p.1 = k
    · simp [eraseKey, lookupKey, hp, hk, ih]
    · by_cases hp' : p.1 = k'
      · have hk' : ¬ (k' = k) := h
        simp [eraseKey, lookupKey, hp, hp', hk']
      · simp [eraseKey, lookupKey, hp, hp', ih]

theorem keys_setKey_of_lookup (l : List (String × α)) (k : String) (v : α)
    (h : lookupKey l k ≠ none) :
    (setKey l k v).map Prod.fst = l.map Prod.fst := by
  induction l with
  | nil => simp [lookupKey] at h
  | cons p t ih =>
    by_cases hp : p.1 = k
    · simp [setKey, hp]
    · simp only [lookupKey, if_neg hp] at h
      simp [setKey, hp, ih h]

theorem mem_keys_setKey (l : List (String × α)) (k k' : String) (v : α)
    (h : k' ∈ (setKey l k v).map Prod.fst) :
    k' = k ∨ k' ∈ l.map Prod.fst := by
  induction l with
  | nil => simpa [setKey] using h
  | cons p t ih =>
    by_cases hp : p.1 = k
    · simp only [setKey, if_pos hp, List.map_cons, List.mem_cons] at h
      rcases h with h | h
      · exact Or.inl h
      · exact Or.inr (by simp [h])
    · simp only [setKey, if_neg hp, List.map_cons, List.mem_cons] at h
      rcases h with h | h
      · exact Or.inr (by simp [h])
      · rcases ih h with h' | h'
        · exact Or.inl h'
        · exact Or.inr (by simp [h'])

theorem keysNodup_setKey (l : List (String × α)) (k : String) (v : α)
    (h : KeysNodup l) : KeysNodup (setKey l k v) := by
  unfold KeysNodup at *
  induction l with
  | nil => simp [setKey]
  | cons p t ih =>
    rcases List.nodup_cons.mp h with ⟨hpn, htn⟩
    by_cases hp : p.1 = k
    · simp only [setKey, if_pos hp, List.map_cons]
      exact List.nodup_cons.mpr ⟨hp ▸ hpn, htn⟩
    · simp only [setKey, if_neg hp, List.map_cons]
      refine List.nodup_cons.mpr ⟨?_, ih htn⟩
      intro hmem
      rcases mem_keys_setKey t k p.1 v hmem with h' | h'
      · exact hp h'
      · exact hpn h'

theorem mem_of_mem_eraseKey (l : List (String × α)) (k : String)
    (q : String × α) (h : q ∈ eraseKey l k) : q ∈ l := by
  induction l with
  | nil => simp [eraseKey] at h
  | cons r s ih =>
    by_cases hr : r.1 = k
    · simp only [eraseKey, if_pos hr] at h
      exact List.mem_cons_of_mem r (ih h)
    · simp only [eraseKey, if_neg hr, List.mem_cons] at h
      rcases h with h | h
      · exact h ▸ List.mem_cons_self r s
      · exact List.mem_cons_of_mem r (ih h)

theorem keysNodup_eraseKey (l : List (String × α)) (k : String)
    (h : KeysNodup l) : KeysNodup (eraseKey l k) := by
  unfold KeysNodup at *
  induction l with
  | nil => simp [eraseKey]
  | cons p t ih =>
    rcases List.nodup_cons.mp h with ⟨hpn, htn⟩
    by_cases hp : p.1 = k
    · simp only [eraseKey, if_pos hp]
      exact ih htn
    · simp only [eraseKey, if_neg hp, List.map_cons]
      refine List.nodup_cons.mpr ⟨?_, ih htn⟩
      intro hmem
      refine hpn ?_
      rcases List.mem_map.mp hmem with ⟨q, hq, hqk⟩
      exact hqk ▸ List.mem_map_of_mem Prod.fst (mem_of_mem_eraseKey t k q hq)

theorem countP_le_one_of_keysNodup (l : List (String × α)) (k : String)
    (h : KeysNodup l) : l.countP (fun p => p.1 == k) ≤ 1 := by
  unfold KeysNodup at h
  induction l with
  | nil => simp
  | cons p t ih =>
    rcases List.nodup_cons.mp h with ⟨hpn, htn⟩
    by_cases hp : p.1 = k
    · have hzero : t.countP (fun p => p.1 == k) = 0 := by
        rw [List.countP_eq_zero]
        intro q hq hqk
        exact hpn (by
          have : q.1 = k := by simpa using hqk
          rw [hp]
          exact this ▸ List.mem_map_of_mem Prod.fst hq)
      rw [List.countP_cons]
      simp [hp, hzero]
    · rw [List.countP_cons]
      have : (decide ((fun p : String × α => p.1 == k) p) : Bool) = false := by
        simpa using hp
      simpa [hp] using ih htn

/-! ## Position store (`src/positions.js`)

`state = { open: {mint → OpenPos}, closed: [ClosedPos] }`, held in memory and
flushed to `positions.json` by `writeAll` after every mutation.  The `Store`
carries both the in-memory state and the persisted snapshot so that the
"persisted snapshot unchanged" part of the no-op claims is expressible. -/

/-- A value acceptable to `toBigIntOrNull`: a JS bigint, string or number. -/
inductive JsQty where
  | big (n : Int)
  | str (s : String)
  | num (x : JsNum)
deriving DecidableEq, Repr

/-- `toBigIntOrNull` from `positions.js`: bigints pass through, all-digit
strings parse, finite numbers floor; anything else is `null`. -/
def toBigIntOrNull : Option JsQty → Option Int
  | none => none
  | some (.big n) => some n
  | some (.str s) => (s.toNat?).map Int.ofNat
  | some (.num (.fin q)) => some ⌊q⌋
  | some (.num _) => none

/-- An open position record as written by `openPosition`. -/
structure OpenPos where
  mint : String
  wallet : Option String
  entryPriceUsd : Option JsNum
  qtyAtoms : Option Int
  decimals : Option Int
  qty : Option JsNum
  solSpent : Option JsNum
  tsOpen : Int
  sourceTx : Option String
  mode : String
deriving DecidableEq, Repr

/-- A closed position record: the open record spread together with the exit
fields (`{...pos, exitPriceUsd, pnlPct, tsClose, reason, exitTx}`). -/
structure ClosedPos where
  pos : OpenPos
  exitPriceUsd : Option JsNum
  pnlPct : Option JsNum
  tsClose : Int
  reason : String
  exitTx : Option String
deriving DecidableEq, Repr

/-- `{ open, closed }` as stored in memory or in `positions.json`. -/
structure PosFile where
  opn : List (String × OpenPos)
  closed : List ClosedPos
deriving DecidableEq, Repr

/-- The in-memory `state` plus the on-disk snapshot written by `writeAll`. -/
structure Store where
  mem : PosFile
  disk : PosFile
deriving DecidableEq, Repr

/-- The store of a fresh process with no (or corrupt) `positions.json`:
`readAll` yields `{ open: {}, closed: [] }`. -/
def initStore : Store :=
  ⟨⟨[], []⟩, ⟨[], []⟩⟩

/-- Arguments of `openPosition` (fields absent at a call site are `none`;
`decimals` is kept as an integer since every caller passes an integer token
decimal count or omits the field). -/
structure OpenArgs where
  mint : String
  wallet : Option String
  entryPriceUsd : Option JsNum
  qty : Option JsQty
  qtyAtoms : Option JsQty
  decimals : Option Int
  solSpent : Option JsNum
  sourceTx : Option String
  mode : Option String
deriving Repr

/-- `openPosition` from `positions.js`: normalizes quantity and decimals,
derives a UI quantity when possible, overwrites `state.open[mint]` and
persists. `now` stands for `Date.now()`, `tradeModeDefault` for
`cfg.tradeMode`. -/
def openPosition (st : Store) (a : OpenArgs) (now : Int)
    (tradeModeDefault : String) : Store :=
  let atoms : Option Int := (toBigIntOrNull a.qtyAtoms).or (toBigIntOrNull a.qty)
  let tokenDecimals : Option Int := a.decimals
  let qtyUi : Option JsNum :=
    match atoms, tokenDecimals with
    | some n, some d => some (.fin ((n : ℚ) / (10 : ℚ) ^ d))
    | _, _ => none
  let record : OpenPos :=
    { mint := a.mint
      wallet := a.wallet
      entryPriceUsd :=
        match a.entryPriceUsd with
        | some (.fin q) => some (.fin q)
        | _ => none
      qtyAtoms := atoms
      decimals := tokenDecimals
      qty := qtyUi
      solSpent := a.solSpent
      tsOpen := now
      sourceTx := strTruthy a.sourceTx
      mode := jsOrStr a.mode tradeModeDefault }
  let mem' : PosFile := { st.mem with opn := setKey st.mem.opn a.mint record }
  ⟨mem', mem'⟩

/-- `closePosition` from `positions.js`.  Returns the closed record (or
`null` when no position is open for the mint) together with the updated
store.  The pnl is computed whenever **both** prices have
`typeof === 'number'` — including non-finite numbers — while the persisted
`exitPriceUsd` field is additionally guarded by `Number.isFinite`. -/
def closePosition (st : Store) (mint : String) (exitPriceUsd : Option JsNum)
    (reason : Option String) (exitTx : Option String) (now : Int) :
    Option ClosedPos × Store :=
  match lookupKey st.mem.opn mint with
  | none => (none, st)
  | some pos =>
    let pnlPct : Option JsNum :=
      match exitPriceUsd, pos.entryPriceUsd with
      | some e, some en => some (((e.sub en).div en).mul (.fin 100))
      | _, _ => none
    let record : ClosedPos :=
      { pos := pos
        exitPriceUsd :=
          match exitPriceUsd with
          | some (.fin q) => some (.fin q)
          | _ => none
        pnlPct := pnlPct
        tsClose := now
        reason := jsOrStr reason "exit"
        exitTx := exitTx }
    let mem' : PosFile :=
      { opn := eraseKey st.mem.opn mint, closed := st.mem.closed ++ [record] }
    (some record, ⟨mem', mem'⟩)

/-- `getOpenPosition` / `hasOpenPosition`. -/
def getOpenPosition (st : Store) (mint : String) : Option OpenPos :=
  lookupKey st.mem.opn mint

/-- A mutation of the position store: the webhook pipeline calls
`openPosition` on a confirmed buy and the watcher calls `closePosition`;
these are the only writers of `state.open`. -/
inductive StoreOp where
  | openOp (a : OpenArgs) (now : Int) (tradeModeDefault : String)
  | closeOp (mint : String) (exitPriceUsd : Option JsNum)
      (reason : Option String) (exitTx : Option String) (now : Int)

/-- Apply one store mutation. -/
def applyOp (st : Store) : StoreOp → Store
  | .openOp a now d => openPosition st a now d
  | .closeOp m e r t now => (closePosition st m e r t now).2

/-- Apply a sequence of store mutations in order. -/
def applyOps (st : Store) (ops : List StoreOp) : Store :=
  ops.foldl applyOp st

theorem keysNodup_applyOp (st : Store) (op : StoreOp)
    (h : KeysNodup st.mem.opn) : KeysNodup (applyOp st op).mem.opn := by
  cases op with
  | openOp a now d =>
    simpa [applyOp, openPosition] using keysNodup_setKey st.mem.opn a.mint _ h
  | closeOp m e r t now =>
    simp only [applyOp, closePosition]
    cases hl : lookupKey st.mem.opn m with
    | none => simpa using h
    | some pos => simpa using keysNodup_eraseKey st.mem.opn m h

theorem keysNodup_applyOps (st : Store) (ops : List StoreOp)
    (h : KeysNodup st.mem.opn) : KeysNodup (applyOps st ops).mem.opn := by
  induction ops generalizing st with
  | nil => simpa [applyOps] using h
  | cons op rest ih =>
    simpa [applyOps] using ih (applyOp st op) (keysNodup_applyOp st op h)

/-- **C1.** At most one open position exists per mint at every observable
point: starting from any store whose open map has distinct keys (as the
fresh store does), after any sequence of `openPosition` / `closePosition`
calls — the only writers the webhook pipeline and the watcher perform — the
open map contains at most one record for any given mint (`openPosition`
overwrites by mint, and the pipeline additionally skips a buy when an open
position or an in-flight lock exists). -/
theorem C1_at_most_one_open_position_per_mint
    (st : Store) (ops : List StoreOp) (mint : String)
    (h : KeysNodup st.mem.opn) :
    ((applyOps st ops).mem.opn).countP (fun p => p.1 == mint) ≤ 1 :=
  countP_le_one_of_keysNodup _ mint (keysNodup_applyOps st ops h)

/-- Arguments of the `openPosition` call made by the webhook handler for a
confirmed buy of mint `M1` (only the fields `index.js` passes). -/
def exampleOpenArgs : OpenArgs :=
  { mint := "M1", wallet := some "W1", entryPriceUsd := some (.fin 2)
    qty := none, qtyAtoms := none, decimals := none, solSpent := some (.fin 1)
    sourceTx := some "S1", mode := some "paper" }

theorem C1_witness :
    ((applyOps initStore
        [.openOp exampleOpenArgs 100 "paper",
         .openOp exampleOpenArgs 200 "paper",
         .openOp { exampleOpenArgs with mint := "M2" } 300 "paper",
         .closeOp "M1" (some (.fin 3)) (some "manual") none 400,
         .openOp exampleOpenArgs 500 "paper"]).mem.opn).countP
      (fun p => p.1 == "M1") ≤ 1 :=
  C1_at_most_one_open_position_per_mint initStore _ "M1"
    (by simp [initStore, KeysNodup])

/-- **C9.** `closePosition` on an absent mint is a harmless no-op: it
returns `null` and leaves the whole store — the open map, the closed list
and the persisted snapshot — unchanged. -/
theorem C9_close_absent_mint_noop
    (st : Store) (mint : String) (e : Option JsNum) (r : Option String)
    (t : Option String) (now : Int)
    (h : lookupKey st.mem.opn mint = none) :
    closePosition st mint e r t now = (none, st) := by
  unfold closePosition
  rw [h]

theorem C9_witness :
    closePosition initStore "M9" (some (.fin 5)) (some "manual") none 7
      = (none, initStore) :=
  C9_close_absent_mint_noop initStore "M9" (some (.fin 5)) (some "manual")
    none 7 (by rfl)

/-- A store holding one open position for mint `MINT` with a finite entry
price of 1 USD, as `openPosition` would produce. -/
def c5Store : Store :=
  let pos : OpenPos :=
    { mint := "MINT", wallet := some "W", entryPriceUsd := some (.fin 1)
      qtyAtoms := none, decimals := none, qty := none, solSpent := none
      tsOpen := 0, sourceTx := some "S", mode := "paper" }
  ⟨⟨[("MINT", pos)], []⟩, ⟨[("MINT", pos)], []⟩⟩

/-- **C5 counterexample.** The claim says `pnlPct` is `null` whenever the
two prices are not both finite.  But `closePosition` only checks
`typeof === 'number'`: calling it with `exitPriceUsd = NaN` — a number that
is not finite — on a position with finite entry price 1 produces
`pnlPct = NaN`, not `null` (the persisted `exitPriceUsd` field itself, which
is guarded by `Number.isFinite`, becomes `null`). -/
theorem C5_counterexample :
    ((closePosition c5Store "MINT" (some JsNum.nan) (some "manual") none 10).1.map
        (fun r => (r.pnlPct, r.exitPriceUsd)))
      = some (some JsNum.nan, none)
    ∧ JsNum.isFinite JsNum.nan = false := by
  constructor
  · rfl
  · rfl

/-- **C5 (amended).** Atomic close: for every mint with an open position,
`closePosition` removes the mint from the open map and appends a record with
that mint to the closed list; `pnlPct` is non-null exactly when both
`exitPriceUsd` and the stored `entryPriceUsd` are numbers (`typeof` check),
and equals `((exit − entry)/entry) × 100` when both are finite and the entry
price is nonzero; a non-finite numeric `exitPriceUsd` yields a non-null
non-finite `pnlPct` rather than `null`. -/
theorem C5_close_position_amended
    (st : Store) (mint : String) (pos : OpenPos) (e : Option JsNum)
    (reason : Option String) (exitTx : Option String) (now : Int)
    (h : lookupKey st.mem.opn mint = some pos) (hm : pos.mint = mint) :
    ∃ record : ClosedPos,
      (closePosition st mint e reason exitTx now).1 = some record
      ∧ lookupKey (closePosition st mint e reason exitTx now).2.mem.opn mint
          = none
      ∧ (closePosition st mint e reason exitTx now).2.mem.closed
          = st.mem.closed ++ [record]
      ∧ record.pos.mint = mint
      ∧ (record.pnlPct = none ↔ (e = none ∨ pos.entryPriceUsd = none))
      ∧ (∀ ev nv : ℚ, e = some (.fin ev) → pos.entryPriceUsd = some (.fin nv) →
          nv ≠ 0 → record.pnlPct = some (.fin ((ev - nv) / nv * 100))) := by
  have hres : closePosition st mint e reason exitTx now =
      (some { pos := pos
              exitPriceUsd :=
                match e with
                | some (.fin q) => some (.fin q)
                | _ => none
              pnlPct :=
                match e, pos.entryPriceUsd with
                | some ev, some en => some (((ev.sub en).div en).mul (.fin 100))
                | _, _ => none
              tsClose := now
              reason := jsOrStr reason "exit"
              exitTx := exitTx },
        ⟨⟨eraseKey st.mem.opn mint,
          st.mem.closed ++
            [{ pos := pos
               exitPriceUsd :=
                 match e with
                 | some (.fin q) => some (.fin q)
                 | _ => none
               pnlPct :=
                 match e, pos.entryPriceUsd with
                 | some ev, some en =>
                     some (((ev.sub en).div en).mul (.fin 100))
                 | _, _ => none
               tsClose := now
               reason := jsOrStr reason "exit"
               exitTx := exitTx }]⟩,
         ⟨eraseKey st.mem.opn mint,
          st.mem.closed ++
            [{ pos := pos
               exitPriceUsd :=
                 match e with
                 | some (.fin q) => some (.fin q)
                 | _ => none
               pnlPct :=
                 match e, pos.entryPriceUsd with
                 | some ev, some en =>
                     some (((ev.sub en).div en).mul (.fin 100))
                 | _, _ => none
               tsClose := now
               reason := jsOrStr reason "exit"
               exitTx := exitTx }]⟩⟩) := by
    unfold closePosition
    rw [h]
  refine ⟨_, by rw [hres], ?_, by rw [hres], hm, ?_, ?_⟩
  · rw [hres]
    exact lookupKey_eraseKey_self st.mem.opn mint
  · cases e with
    | none => simp
    | some ev =>
      cases hen : pos.entryPriceUsd with
      | none => simp
      | some en => simp [hen]
  · intro ev nv he hen hnv
    simp only [he, hen]
    simp [JsNum.sub, JsNum.div, JsNum.mul, hnv]

theorem C5_witness :
    ∃ record : ClosedPos,
      (closePosition c5Store "MINT" (some (.fin 3)) (some "manual") none 10).1
          = some record
      ∧ lookupKey (closePosition c5Store "MINT" (some (.fin 3)) (some "manual")
            none 10).2.mem.opn "MINT" = none
      ∧ (closePosition c5Store "MINT" (some (.fin 3)) (some "manual")
            none 10).2.mem.closed = c5Store.mem.closed ++ [record]
      ∧ record.pos.mint = "MINT"
      ∧ (record.pnlPct = none ↔
          ((some (JsNum.fin 3) : Option JsNum) = none
            ∨ (some (JsNum.fin 1) : Option JsNum) = none))
      ∧ (∀ ev nv : ℚ, (some (JsNum.fin 3) : Option JsNum) = some (.fin ev) →
          (some (JsNum.fin 1) : Option JsNum) = some (.fin nv) → nv ≠ 0 →
          record.pnlPct = some (.fin ((ev - nv) / nv * 100))) :=
  C5_close_position_amended c5Store "MINT"
    { mint := "MINT", wallet := some "W", entryPriceUsd := some (.fin 1)
      qtyAtoms := none, decimals := none, qty := none, solSpent := none
      tsOpen := 0, sourceTx := some "S", mode := "paper" }
    (some (.fin 3)) (some "manual") none 10 (by rfl) (by rfl)

/-! ## Multi-RPC broadcaster (`src/txSender.js`)

`broadcastAndConfirmWithEndpoint` starts one send-and-confirm task per
configured endpoint and races them with `Promise.any`: the first task to
*fulfil* (confirm) wins; rejections are ignored unless every task rejects,
in which case the `AggregateError`'s first entry — the first endpoint's
rejection, as `errors` follows input order — is rethrown.  Each task's fate
is modelled by an `EndpointOutcome`: the instant it would confirm, or the
instant it would reject and with which error. -/

/-- `{ signature, endpointUsed }`. -/
structure BroadcastResult where
  signature : String
  endpointUsed : String
deriving DecidableEq, Repr

/-- Fate of one endpoint's send-and-confirm task. -/
inductive EndpointOutcome where
  | confirms (time : Int) (sig : String)
  | fails (time : Int) (err : String)
deriving DecidableEq, Repr

/-- A configured RPC endpoint together with its task's fate. -/
structure Endpoint where
  url : String
  outcome : EndpointOutcome
deriving DecidableEq, Repr

/-- `unique` from `txSender.js` (`Array.from(new Set(arr))`): keep the first
occurrence of each element. -/
def uniqueKeepFirst : List String → List String
  | [] => []
  | a :: rest => a :: uniqueKeepFirst (rest.filter (fun s => s ≠ a))
termination_by l => l.length
decreasing_by
  simpa using Nat.lt_succ_of_le (List.length_filter_le _ rest)

/-- `isHttpRpc` (`/^https?:\/\//i`). -/
def isHttpRpc (u : String) : Bool :=
  u.toLower.startsWith "http://" || u.toLower.startsWith "https://"

/-- `pickRpcs` from `txSender.js`: split the configured string on commas,
trim, drop empties, deduplicate, keep http(s) URLs.  (The raw-string throw
when nothing remains is handled at the call site model.) -/
def pickRpcs (raw : String) : List String :=
  (uniqueKeepFirst (((raw.splitOn ",").map String.trim).filter
    (fun s => s ≠ ""))).filter isHttpRpc

/-- Semantics of `Promise.any` over the endpoint tasks: the earliest
fulfilment wins (at equal instants the earlier-listed task's continuation
runs first); rejections are skipped. Returns the winning instant and
`{signature, endpointUsed}`. -/
def promiseAnyWinner : List Endpoint → Option (Int × BroadcastResult)
  | [] => none
  | e :: rest =>
    match e.outcome, promiseAnyWinner rest with
    | .confirms t s, none => some (t, ⟨s, e.url⟩)
    | .confirms t s, some (t', r) =>
        if t ≤ t' then some (t, ⟨s, e.url⟩) else some (t', r)
    | .fails _ _, w => w

/-- The `AggregateError.errors` list: rejection reasons in input order. -/
def aggregateErrors (eps : List Endpoint) : List String :=
  eps.filterMap (fun e =>
    match e.outcome with
    | .fails _ m => some m
    | .confirms _ _ => none)

/-- `broadcastAndConfirmWithEndpoint` from `txSender.js`.  NOTE: the source
destructures `{ maxWaitMs = 12_000 }` but never reads `maxWaitMs` again —
the race is *not* cut off after `maxWaitMs`; the parameter is dead.  The
model keeps the dead parameter to state that fact. -/
def broadcastAndConfirmWithEndpoint (eps : List Endpoint) (maxWaitMs : Int) :
    Except String BroadcastResult :=
  match eps with
  | [] => .error "No valid HTTP RPC endpoints. Set RPC_URLS or RPC_URL (http/https)."
  | _ :: _ =>
    match promiseAnyWinner eps with
    | some (_, r) => .ok r
    | none => .error ((aggregateErrors eps).headD "All promises were rejected")

/-- Legacy `broadcastAndConfirm`: same race, returns only the signature. -/
def broadcastAndConfirm (eps : List Endpoint) (maxWaitMs : Int) :
    Except String String :=
  (broadcastAndConfirmWithEndpoint eps maxWaitMs).map (·.signature)

theorem promiseAnyWinner_mem (eps : List Endpoint) (t : Int)
    (r : BroadcastResult) (h : promiseAnyWinner eps = some (t, r)) :
    ∃ e ∈ eps, e.outcome = .confirms t r.signature ∧ e.url = r.endpointUsed := by
  induction eps with
  | nil => simp [promiseAnyWinner] at h
  | cons e rest ih =>
    cases heo : e.outcome with
    | fails tf m =>
      simp only [promiseAnyWinner, heo] at h
      rcases ih h with ⟨e', he', h1, h2⟩
      exact ⟨e', List.mem_cons_of_mem e he', h1, h2⟩
    | confirms tc s =>
      cases hw : promiseAnyWinner rest with
      | none =>
        simp only [promiseAnyWinner, heo, hw, Option.some.injEq, Prod.mk.injEq] at h
        exact ⟨e, List.mem_cons_self e rest, by rw [heo, h.1, ← h.2], by rw [← h.2]⟩
      | some w =>
        obtain ⟨t', r'⟩ := w
        simp only [promiseAnyWinner, heo, hw] at h
        by_cases hle : t ≤ t'
        · rcases (by_cases
            (fun hle' : tc ≤ t' => by
              rw [if_pos hle'] at h
              exact Or.inl h)
            (fun hle' : ¬ tc ≤ t' => by
              rw [if_neg hle'] at h
              exact Or.inr h) :
              (some (tc, (⟨s, e.url⟩ : BroadcastResult)) = some (t, r))
              ∨ (some (t', r') = some (t, r))) with hcase | hcase
          · simp only [Option.some.injEq, Prod.mk.injEq] at hcase
            exact ⟨e, List.mem_cons_self e rest,
              by rw [heo, hcase.1, ← hcase.2], by rw [← hcase.2]⟩
          · simp only [Option.some.injEq, Prod.mk.injEq] at hcase
            rcases ih (by rw [hw, hcase.1, hcase.2]) with ⟨e', he', h1, h2⟩
            exact ⟨e', List.mem_cons_of_mem e he', h1, h2⟩
        · rcases (by_cases
            (fun hle' : tc ≤ t' => by
              rw [if_pos hle'] at h
              exact Or.inl h)
            (fun hle' : ¬ tc ≤ t' => by
              rw [if_neg hle'] at h
              exact Or.inr h) :
              (some (tc, (⟨s, e.url⟩ : BroadcastResult)) = some (t, r))
              ∨ (some (t', r') = some (t, r))) with hcase | hcase
          · simp only [Option.some.injEq, Prod.mk.injEq] at hcase
            exact ⟨e, List.mem_cons_self e rest,
              by rw [heo, hcase.1, ← hcase.2], by rw [← hcase.2]⟩
          · simp only [Option.some.injEq, Prod.mk.injEq] at hcase
            rcases ih (by rw [hw, hcase.1, hcase.2]) with ⟨e', he', h1, h2⟩
            exact ⟨e', List.mem_cons_of_mem e he', h1, h2⟩

theorem promiseAnyWinner_eq_none_iff (eps : List Endpoint) :
    promiseAnyWinner eps = none
      ↔ ∀ e ∈ eps, ∃ tf m, e.outcome = .fails tf m := by
  induction eps with
  | nil => simp [promiseAnyWinner]
  | cons e rest ih =>
    cases heo : e.outcome with
    | fails tf m =>
      simp only [promiseAnyWinner, heo]
      constructor
      · intro h e' he'
        rcases List.mem_cons.mp he' with he' | he'
        · exact ⟨tf, m, he' ▸ heo⟩
        · exact (ih.mp h) e' he'
      · intro h
        exact ih.mpr (fun e' he' => h e' (List.mem_cons_of_mem e he'))
    | confirms tc s =>
      cases hw : promiseAnyWinner rest with
      | none =>
        simp only [promiseAnyWinner, heo, hw]
        constructor
        · intro h; cases h
        · intro h
          rcases h e (List.mem_cons_self e rest) with ⟨tf, m, hm⟩
          rw [heo] at hm
          cases hm
      | some w =>
        obtain ⟨t', r'⟩ := w
        simp only [promiseAnyWinner, heo, hw]
        constructor
        · intro h
          by_cases hle : tc ≤ t' <;> simp [hle] at h
        · intro h
          rcases h e (List.mem_cons_self e rest) with ⟨tf, m, hm⟩
          rw [heo] at hm
          cases hm

theorem promiseAnyWinner_min (eps : List Endpoint) (t : Int)
    (r : BroadcastResult) (h : promiseAnyWinner eps = some (t, r)) :
    ∀ e ∈ eps, ∀ t' s', e.outcome = .confirms t' s' → t ≤ t' := by
  induction eps generalizing t r with
  | nil => simp [promiseAnyWinner] at h
  | cons e rest ih =>
    intro f hf tf sf hfo
    cases heo : e.outcome with
    | fails te m =>
      simp only [promiseAnyWinner, heo] at h
      rcases List.mem_cons.mp hf with hfe | hfe
      · rw [hfe, heo] at hfo
        cases hfo
      · exact ih t r h f hfe tf sf hfo
    | confirms tc s =>
      cases hw : promiseAnyWinner rest with
      | none =>
        simp only [promiseAnyWinner, heo, hw, Option.some.injEq,
          Prod.mk.injEq] at h
        rcases List.mem_cons.mp hf with hfe | hfe
        · rw [hfe, heo] at hfo
          injection hfo with h1 h2
          have h3 := h.1
          omega
        · exfalso
          rcases (promiseAnyWinner_eq_none_iff rest).mp hw f hfe with ⟨a, b, hab⟩
          rw [hfo] at hab
          cases hab
      | some w =>
        obtain ⟨tw, rw'⟩ := w
        simp only [promiseAnyWinner, heo, hw] at h
        have htail := ih tw rw' hw
        by_cases hle : tc ≤ tw
        · rw [if_pos hle] at h
          simp only [Option.some.injEq, Prod.mk.injEq] at h
          have h3 := h.1
          rcases List.mem_cons.mp hf with hfe | hfe
          · rw [hfe, heo] at hfo
            injection hfo with h1 h2
            omega
          · have h4 := htail f hfe tf sf hfo
            omega
        · rw [if_neg hle] at h
          simp only [Option.some.injEq, Prod.mk.injEq] at h
          have h3 := h.1
          rcases List.mem_cons.mp hf with hfe | hfe
          · rw [hfe, heo] at hfo
            injection hfo with h1 h2
            omega
          · have h4 := htail f hfe tf sf hfo
            omega

theorem promiseAnyWinner_unique_earliest (eps : List Endpoint)
    (e : Endpoint) (t : Int) (s : String)
    (he : e ∈ eps) (ho : e.outcome = .confirms t s)
    (hmin : ∀ e' ∈ eps, ∀ t' s', e'.outcome = .confirms t' s' →
      e' = e ∨ t < t') :
    promiseAnyWinner eps = some (t, ⟨s, e.url⟩) := by
  induction eps with
  | nil => cases he
  | cons f rest ih =>
    have hmin' : ∀ e' ∈ rest, ∀ t' s', e'.outcome = .confirms t' s' →
        e' = e ∨ t < t' :=
      fun e' he'' => hmin e' (List.mem_cons_of_mem f he'')
    cases hfo : f.outcome with
    | fails tf m =>
      have hfe : f ≠ e := by
        intro hh
        rw [hh, ho] at hfo
        cases hfo
      have he' : e ∈ rest := by
        rcases List.mem_cons.mp he with h' | h'
        · exact absurd h'.symm hfe
        · exact h'
      simp only [promiseAnyWinner, hfo]
      exact ih he' hmin'
    | confirms tc sc =>
      rcases hmin f (List.mem_cons_self f rest) tc sc hfo with hfe | hlt
      · -- the head is (a duplicate of) the earliest confirmer
        rw [hfe] at hfo ⊢
        rw [ho] at hfo
        injection hfo with h1 h2
        subst h1
        subst h2
        cases hw : promiseAnyWinner rest with
        | none =>
          simp [promiseAnyWinner, ho, hw]
        | some w =>
          obtain ⟨tw, rw'⟩ := w
          have hle : t ≤ tw := by
            rcases promiseAnyWinner_mem rest tw rw' hw with ⟨e', he'', hh1, hh2⟩
            rcases hmin e' (List.mem_cons_of_mem f he'') tw rw'.signature hh1
              with h' | h'
            · rw [h', ho] at hh1
              injection hh1 with ha hb
              exact le_of_eq ha
            · exact le_of_lt h'
          simp only [promiseAnyWinner, ho, hw]
          rw [if_pos hle]
      · -- the head confirms strictly later; the winner comes from the tail
        have hfe : f ≠ e := by
          intro hh
          rw [hh, ho] at hfo
          injection hfo with h1 h2
          exact absurd h1 (ne_of_lt hlt)
        have he' : e ∈ rest := by
          rcases List.mem_cons.mp he with h' | h'
          · exact absurd h'.symm hfe
          · exact h'
        have hwrest := ih he' hmin'
        simp only [promiseAnyWinner, hfo, hwrest]
        rw [if_neg (not_le_of_lt hlt)]

/-- **C2.** Race semantics of `broadcastAndConfirmWithEndpoint` over any
non-empty endpoint list: (a) the endpoint that is strictly first to complete
confirmation wins and its `{signature, endpointUsed}` pair is returned;
(b) in particular with exactly one healthy endpoint (all others reject) the
call returns that endpoint's signature and url; (c) when every endpoint
fails, the call raises the *first endpoint's* error
(`AggregateError.errors[0]`) instead of returning a result. -/
theorem C2_broadcast_race (eps : List Endpoint) (w : Int) (hne : eps ≠ []) :
    (∀ e ∈ eps, ∀ t s, e.outcome = .confirms t s →
      (∀ e' ∈ eps, ∀ t' s', e'.outcome = .confirms t' s' → e' = e ∨ t < t') →
      broadcastAndConfirmWithEndpoint eps w = .ok ⟨s, e.url⟩)
    ∧ (∀ e ∈ eps, ∀ t s, e.outcome = .confirms t s →
      (∀ e' ∈ eps, e' = e ∨ ∃ tf m, e'.outcome = .fails tf m) →
      broadcastAndConfirmWithEndpoint eps w = .ok ⟨s, e.url⟩)
    ∧ ((∀ e ∈ eps, ∃ tf m, e.outcome = .fails tf m) →
      ∃ tf m, (eps.head hne).outcome = .fails tf m ∧
        broadcastAndConfirmWithEndpoint eps w = .error m) := by
  obtain ⟨f, rest, rfl⟩ : ∃ f rest, eps = f :: rest := by
    cases eps with
    | nil => exact absurd rfl hne
    | cons f rest => exact ⟨f, rest, rfl⟩
  refine ⟨?_, ?_, ?_⟩
  · intro e he t s ho hmin
    have hw := promiseAnyWinner_unique_earliest (f :: rest) e t s he ho hmin
    simp only [broadcastAndConfirmWithEndpoint, hw]
  · intro e he t s ho honly
    have hmin : ∀ e' ∈ f :: rest, ∀ t' s',
        e'.outcome = .confirms t' s' → e' = e ∨ t < t' := by
      intro e' he' t' s' ho'
      rcases honly e' he' with h' | ⟨tf, m, hm⟩
      · exact Or.inl h'
      · rw [ho'] at hm
        cases hm
    have hw := promiseAnyWinner_unique_earliest (f :: rest) e t s he ho hmin
    simp only [broadcastAndConfirmWithEndpoint, hw]
  · intro hall
    have hw : promiseAnyWinner (f :: rest) = none :=
      (promiseAnyWinner_eq_none_iff (f :: rest)).mpr hall
    rcases hall f (List.mem_cons_self f rest) with ⟨tf, m, hm⟩
    refine ⟨tf, m, by simpa using hm, ?_⟩
    simp only [broadcastAndConfirmWithEndpoint, hw]
    simp [aggregateErrors, hm]

/-- Endpoint list for the witness: the first endpoint's task rejects early,
the second confirms at 100ms. -/
def epsEx : List Endpoint :=
  [⟨"https://rpc1.example", .fails 5 "send failed"⟩,
   ⟨"https://rpc2.example", .confirms 100 "SIGX"⟩]

theorem C2_witness :
    broadcastAndConfirmWithEndpoint epsEx 12000
      = .ok ⟨"SIGX", "https://rpc2.example"⟩ :=
  (C2_broadcast_race epsEx 12000 (by simp [epsEx])).1
    ⟨"https://rpc2.example", .confirms 100 "SIGX"⟩ (by simp [epsEx])
    100 "SIGX" rfl
    (by
      intro e' he' t' s' ho'
      simp only [epsEx, List.mem_cons, List.mem_singleton] at he'
      rcases he' with he' | he' | he'
      · rw [he'] at ho'
        cases ho'
      · exact Or.inl he'
      · cases he')

/-- **C3.** The spec claims the broadcast race is bounded by `maxWaitMs`.
The source accepts `maxWaitMs` (default `12_000`) but never reads it: a
single endpoint confirming at 20000ms — past the 12000ms default bound —
still yields a successful result, and the outcome is identical for *every*
value of `maxWaitMs`.  The race is unbounded; the parameter is dead code. -/
theorem C3_maxWaitMs_ignored :
    broadcastAndConfirmWithEndpoint
        [⟨"https://rpc1.example", .confirms 20000 "SIGY"⟩] 12000
      = .ok ⟨"SIGY", "https://rpc1.example"⟩
    ∧ (20000 : Int) > 12000
    ∧ (∀ w w' : Int, ∀ eps : List Endpoint,
        broadcastAndConfirmWithEndpoint eps w
          = broadcastAndConfirmWithEndpoint eps w') := by
  refine ⟨rfl, by norm_num, ?_⟩
  intro w w' eps
  rfl

/-! ## Buy detector (`src/buyDetector.js`, dominant variant)

The repository carries three `detectBuys` variants; the dominant one (the one
the spec describes) debounces on the key `buy:{wallet}:{mint}` with the
`cfg.buyDebounceMinutes` window.  Numeric payload fields are numbers or
absent in enhanced-transaction payloads; `Number()` coercion of other JSON
value kinds is not modelled.  The seen-cache stores millisecond timestamps
(integers). -/

/-- One entry of `enhancedTx.tokenTransfers`. -/
structure TokenTransfer where
  mint : Option String
  toUserAccount : Option String
  toUserAccountOwner : Option String
  toUserOwner : Option String
  tokenAccountToOwner : Option String
  uiTokenAmount : Option JsNum
  tokenAmount : Option JsNum
  amount : Option JsNum
  tokenAmountSent : Option JsNum
deriving DecidableEq, Repr

/-- One entry of `enhancedTx.nativeTransfers` (`amount` is a number or a
numeric string in lamports). -/
structure NativeTransfer where
  fromUserAccount : Option String
  amount : Option JsQty
deriving DecidableEq, Repr

/-- The parts of a Helius enhanced transaction the detector reads. -/
structure EnhancedTx where
  signature : Option String
  transactionSignature : Option String
  txType : Option String
  tokenTransfers : Option (List TokenTransfer)
  nativeTransfers : Option (List NativeTransfer)
deriving DecidableEq, Repr

/-- The configuration fields the detector reads. -/
structure DetectorCfg where
  excludedMints : List String
  minTokenAmount : ℚ
  buyDebounceMinutes : Int
deriving DecidableEq, Repr

/-- A normalized buy signal. -/
structure BuySignal where
  wallet : String
  mint : String
  amount : ℚ
  signature : String
  solSpent : Option JsNum
  txType : String
deriving DecidableEq, Repr

/-- `safeNum`: `Number(x)` when finite, else `null`. -/
def safeNum : Option JsNum → Option ℚ
  | some (.fin q) => some q
  | _ => none

/-- The lamport sum of `extractSolSpentSOL`'s loop; `none` models the loop
throwing (`BigInt` of a non-integral number, `NaN`, `Infinity`, or a
non-numeric string), which the surrounding `try` turns into `null`.
(`BigInt`'s tolerance for whitespace/hex string forms is approximated by
integer parsing.) -/
def sumLamports (w : String) (acc : Int) : List NativeTransfer → Option Int
  | [] => some acc
  | t :: rest =>
    if t.fromUserAccount = some w then
      match t.amount with
      | some (.str s) =>
        match s.toInt? with
        | some v => sumLamports w (acc + (if v > 0 then v else 0)) rest
        | none => none
      | some (.num (.fin q)) =>
        if (max 0 q).den = 1 then
          sumLamports w (acc + (if (max 0 q).num > 0 then (max 0 q).num else 0)) rest
        else none
      | some (.num .ninf) => sumLamports w acc rest
      | some (.num _) => none
      | some (.big n) => sumLamports w acc rest
      | none => sumLamports w acc rest
    else sumLamports w acc rest

/-- `extractSolSpentSOL`: total lamports sent by `wallet`, converted to SOL;
`null` when zero or when the sum threw. -/
def extractSolSpentSOL (tx : EnhancedTx) (wallet : String) : Option JsNum :=
  match sumLamports wallet 0 (tx.nativeTransfers.getD []) with
  | none => none
  | some n => if n = 0 then none else some (.fin ((n : ℚ) / 1000000000))

/-- The debounce window `(cfg.buyDebounceMinutes || 30) * 60 * 1000`. -/
def debounceWindowMs (cfg : DetectorCfg) : Int :=
  (if cfg.buyDebounceMinutes = 0 then 30 else cfg.buyDebounceMinutes) * 60 * 1000

/-- The debounce key `buy:{wallet}:{mint}`. -/
def buyKey (wallet mint : String) : String :=
  "buy:" ++ wallet ++ ":" ++ mint

/-- `.toUpperCase()` (structural recursion over the characters, so that
concrete evaluation reduces in the kernel). -/
def jsToUpper (s : String) : String :=
  ⟨s.data.map Char.toUpper⟩

/-- The detector's qualification guards for one transfer, in source order:
a present, non-excluded mint; a truthy destination owner found in the
tracked set; a positive finite amount above the dust filter.  Returns
`(toOwner, mint, amount)` for a qualifying transfer. -/
def qualifyTransfer (cfg : DetectorCfg) (tracked : List String)
    (t : TokenTransfer) : Option (String × String × ℚ) :=
  match t.mint with
  | none => none
  | some mint =>
    if mint = "" ∨ mint ∈ cfg.excludedMints then none
    else
      match (strTruthy t.toUserAccount).or ((strTruthy t.toUserAccountOwner).or
          ((strTruthy t.toUserOwner).or (strTruthy t.tokenAccountToOwner))) with
      | none => none
      | some toOwner =>
        if toOwner ∉ tracked then none
        else
          match (safeNum t.uiTokenAmount).or ((safeNum t.tokenAmount).or
              ((safeNum t.amount).or (safeNum t.tokenAmountSent))) with
          | none => none
          | some amount =>
            if amount ≤ 0 ∨ amount < cfg.minTokenAmount then none
            else some (toOwner, mint, amount)

/-- The detector's per-transfer body, threading `(out, cache)` through the
`for` loop: qualify the transfer, then apply the `debounced` check
(`now - (cache.get(key) || 0) < windowMs`; on pass, set the key to `now`)
and emit the signal. -/
def detectStep (cfg : DetectorCfg) (tx : EnhancedTx) (tracked : List String)
    (sig ty : String) (now : Int)
    (acc : List BuySignal × List (String × Int)) (t : TokenTransfer) :
    List BuySignal × List (String × Int) :=
  let (out, cache) := acc
  match qualifyTransfer cfg tracked t with
  | none => (out, cache)
  | some (toOwner, mint, amount) =>
    let key := buyKey toOwner mint
    let last : Int := (lookupKey cache key).getD 0
    if now - last < debounceWindowMs cfg then (out, cache)
    else
      (out ++ [{ wallet := toOwner, mint := mint, amount := amount
                 signature := sig
                 solSpent := extractSolSpentSOL tx toOwner
                 txType := jsOrStr (some ty) "UNKNOWN" }],
       setKey cache key now)

/-- `detectBuys` (dominant variant): iterate the token transfers, emitting
one `BuySignal` per qualifying transfer and updating the seen-cache;
returns the signals together with the updated cache.  `now` stands for
`Date.now()` during the call. -/
def detectBuys (cfg : DetectorCfg) (tx : EnhancedTx) (tracked : List String)
    (cache : List (String × Int)) (now : Int) :
    List BuySignal × List (String × Int) :=
  let sig := ((strTruthy tx.signature).or (strTruthy tx.transactionSignature)).getD ""
  let ty := jsToUpper (tx.txType.getD "")
  let transfers := tx.tokenTransfers.getD []
  if transfers.isEmpty then ([], cache)
  else transfers.foldl (detectStep cfg tx tracked sig ty now) ([], cache)

/-- Invariant for the setting half of the debounce claim: every emitted
signal's `buy:{wallet}:{mint}` key maps to the call instant. -/
theorem detectStep_sets_key (cfg : DetectorCfg) (tx : EnhancedTx)
    (tracked : List String) (sig ty : String) (now : Int)
    (acc : List BuySignal × List (String × Int)) (t : TokenTransfer)
    (h : ∀ s ∈ acc.1, lookupKey acc.2 (buyKey s.wallet s.mint) = some now) :
    ∀ s ∈ (detectStep cfg tx tracked sig ty now acc t).1,
      lookupKey (detectStep cfg tx tracked sig ty now acc t).2
        (buyKey s.wallet s.mint) = some now := by
  obtain ⟨out, cache⟩ := acc
  unfold detectStep
  simp only
  cases hq : qualifyTransfer cfg tracked t with
  | none => exact h
  | some q =>
    obtain ⟨toOwner, mint, amount⟩ := q
    simp only
    split
    · exact h
    · intro s hs
      rcases List.mem_append.mp hs with hs | hs
      · by_cases hkey : buyKey s.wallet s.mint = buyKey toOwner mint
        · rw [hkey]
          exact lookupKey_setKey_self cache _ now
        · rw [lookupKey_setKey_ne cache _ _ now hkey]
          exact h s hs
      · simp only [List.mem_singleton] at hs
        subst hs
        exact lookupKey_setKey_self cache _ now

/-- Invariant for the discarding half: once the key holds `t1` (set within
the window) — or has been re-set to `now` — no signal for `(w, m)` is
emitted and the key keeps holding one of those two instants. -/
theorem detectStep_no_dup (cfg : DetectorCfg) (tx : EnhancedTx)
    (tracked : List String) (sig ty : String) (now t1 : Int) (w m : String)
    (hwin : now - t1 < debounceWindowMs cfg) (hpos : 0 < debounceWindowMs cfg)
    (acc : List BuySignal × List (String × Int)) (t : TokenTransfer)
    (h : (∀ s ∈ acc.1, ¬ (s.wallet = w ∧ s.mint = m))
      ∧ (lookupKey acc.2 (buyKey w m) = some t1
          ∨ lookupKey acc.2 (buyKey w m) = some now)) :
    (∀ s ∈ (detectStep cfg tx tracked sig ty now acc t).1,
        ¬ (s.wallet = w ∧ s.mint = m))
      ∧ (lookupKey (detectStep cfg tx tracked sig ty now acc t).2 (buyKey w m)
            = some t1
        ∨ lookupKey (detectStep cfg tx tracked sig ty now acc t).2 (buyKey w m)
            = some now) := by
  obtain ⟨out, cache⟩ := acc
  unfold detectStep
  simp only
  cases hq : qualifyTransfer cfg tracked t with
  | none => exact h
  | some q =>
    obtain ⟨toOwner, mint, amount⟩ := q
    simp only
    split
    · exact h
    · rename_i hdeb
      constructor
      · intro s hs hsw
        rcases List.mem_append.mp hs with hs | hs
        · exact h.1 s hs hsw
        · simp only [List.mem_singleton] at hs
          subst hs
          -- the emitted signal is (toOwner, mint); were it (w, m), the
          -- debounce check would have discarded it
          obtain ⟨hw, hm⟩ := hsw
          simp only at hw hm
          apply hdeb
          rw [hw, hm]
          rcases h.2 with hc | hc
          · rw [hc]
            simpa using hwin
          · rw [hc]
            simpa using hpos
      · by_cases hkey : buyKey w m = buyKey toOwner mint
        · rw [hkey]
          exact Or.inr (lookupKey_setKey_self cache _ now)
        · rw [lookupKey_setKey_ne cache _ _ now (fun hh => hkey hh)]
          exact h.2

/-- **C4.** Debounce idempotence of the dominant `detectBuys` variant: (a)
on emitting a `BuySignal` the detector sets the seen-cache key
`buy:{wallet}:{mint}` to the current timestamp, and (b) while that key holds
a timestamp within `buy_debounce_minutes` of the current instant — in
particular right after a first emission, regardless of the transaction
signature — no further `BuySignal` for the same `(wallet, mint)` is emitted
(the positivity hypothesis on the window covers the configured and default
values). -/
theorem C4_debounce_idempotent (cfg : DetectorCfg) (tx : EnhancedTx)
    (tracked : List String) (cache : List (String × Int)) (now : Int) :
    (∀ s ∈ (detectBuys cfg tx tracked cache now).1,
      lookupKey (detectBuys cfg tx tracked cache now).2
        (buyKey s.wallet s.mint) = some now)
    ∧ (∀ w m t1, lookupKey cache (buyKey w m) = some t1 →
        now - t1 < debounceWindowMs cfg → 0 < debounceWindowMs cfg →
        ∀ s ∈ (detectBuys cfg tx tracked cache now).1,
          ¬ (s.wallet = w ∧ s.mint = m)) := by
  constructor
  · unfold detectBuys
    simp only
    split
    · simp
    · -- fold preserves the key-setting invariant
      have hfold : ∀ (ts : List TokenTransfer)
          (acc : List BuySignal × List (String × Int)),
          (∀ s ∈ acc.1, lookupKey acc.2 (buyKey s.wallet s.mint) = some now) →
          ∀ s ∈ (ts.foldl (detectStep cfg tx tracked
              (((strTruthy tx.signature).or
                (strTruthy tx.transactionSignature)).getD "")
              (jsToUpper (tx.txType.getD "")) now) acc).1,
            lookupKey (ts.foldl (detectStep cfg tx tracked
                (((strTruthy tx.signature).or
                  (strTruthy tx.transactionSignature)).getD "")
                (jsToUpper (tx.txType.getD "")) now) acc).2
              (buyKey s.wallet s.mint) = some now := by
        intro ts
        induction ts with
        | nil => intro acc hacc; simpa using hacc
        | cons t rest ih =>
          intro acc hacc
          exact ih _ (detectStep_sets_key cfg tx tracked _ _ now acc t hacc)
      exact hfold _ ([], cache) (by simp)
  · intro w m t1 hc hwin hpos
    unfold detectBuys
    simp only
    split
    · simp
    · have hfold : ∀ (ts : List TokenTransfer)
          (acc : List BuySignal × List (String × Int)),
          ((∀ s ∈ acc.1, ¬ (s.wallet = w ∧ s.mint = m))
            ∧ (lookupKey acc.2 (buyKey w m) = some t1
                ∨ lookupKey acc.2 (buyKey w m) = some now)) →
          ∀ s ∈ (ts.foldl (detectStep cfg tx tracked
              (((strTruthy tx.signature).or
                (strTruthy tx.transactionSignature)).getD "")
              (jsToUpper (tx.txType.getD "")) now) acc).1,
            ¬ (s.wallet = w ∧ s.mint = m) := by
        intro ts
        induction ts with
        | nil => intro acc hacc; simpa using hacc.1
        | cons t rest ih =>
          intro acc hacc
          exact ih _ (detectStep_no_dup cfg tx tracked _ _ now t1 w m
            hwin hpos acc t hacc)
      exact hfold _ ([], cache) ⟨by simp, Or.inl hc⟩

/-- The single token transfer of the witness event: 5 tokens of mint `M`
into tracked wallet `W`. -/
def transferEx : TokenTransfer :=
  { mint := some "M", toUserAccount := some "W", toUserAccountOwner := none
    toUserOwner := none, tokenAccountToOwner := none, uiTokenAmount := none
    tokenAmount := some (.fin 5), amount := none, tokenAmountSent := none }

def txEx : EnhancedTx :=
  { signature := some "SIG1", transactionSignature := none
    txType := some "TRANSFER", tokenTransfers := some [transferEx]
    nativeTransfers := none }

/-- Detector configuration for the witness: defaults from `config.js`. -/
def cfgEx : DetectorCfg :=
  { excludedMints := ["So11111111111111111111111111111111111111112"]
    minTokenAmount := 1, buyDebounceMinutes := 30 }

theorem C4_witness :
    lookupKey (detectBuys cfgEx txEx ["W"] [] 1700000000000).2 (buyKey "W" "M")
        = some 1700000000000
    ∧ (∀ s ∈ (detectBuys cfgEx txEx ["W"]
          (detectBuys cfgEx txEx ["W"] [] 1700000000000).2 1700000000500).1,
        ¬ (s.wallet = "W" ∧ s.mint = "M")) := by
  constructor
  · exact (C4_debounce_idempotent cfgEx txEx ["W"] [] 1700000000000).1
      { wallet := "W", mint := "M", amount := 5, signature := "SIG1"
        solSpent := none, txType := "TRANSFER" }
      (by decide)
  · exact (C4_debounce_idempotent cfgEx txEx ["W"]
        (detectBuys cfgEx txEx ["W"] [] 1700000000000).2 1700000000500).2
      "W" "M" 1700000000000 (by decide) (by decide) (by decide)

/-! ## Executor (`src/executor.js`)

`executeBuy` / `executeSell` orchestrate trades.  External actions (signer
loading, swap-layer calls, venue calls, RPC balance lookups, oracle queries,
notifications) are recorded as an effect trace, and their outcomes are
supplied through an environment record, so that "performs no network
action" is the statement `effects = []`. -/

/-- `.toLowerCase()` (structural recursion over the characters). -/
def jsToLower (s : String) : String :=
  ⟨s.data.map Char.toLower⟩

/-- The native wrap mint (`SOL_MINT`). -/
def SOL_MINT : String := "So11111111111111111111111111111111111111112"

/-- The executor configuration fields. -/
structure ExecCfg where
  tradeMode : String
  buySolAmount : ℚ
deriving DecidableEq, Repr

/-- `isLive`: `(cfg.tradeMode || 'paper').toLowerCase() === 'live'`. -/
def isLive (cfg : ExecCfg) : Bool :=
  jsToLower (jsOrStr (some cfg.tradeMode) "paper") = "live"

/-- `toLamports`: `BigInt(Math.floor(Number(sol) * 1e9))`. -/
def toLamports (sol : ℚ) : Int :=
  ⌊sol * 1000000000⌋

/-- An external action performed by the executor. -/
inductive Effect where
  | signerEff
  | swapEff (side inputMint outputMint : String) (amount : Int)
  | oracleEff (mint : String)
  | pumpSellEff (mint percent : String)
  | balanceEff (mint : String)
  | notifyEff
deriving DecidableEq, Repr

/-- Result of `swapExactIn` when it resolves. -/
structure SwapResult where
  signature : String
  priceUsd : Option JsNum
  received : Option Int
  strategy : Option String
deriving DecidableEq, Repr

/-- Result of `sellViaPumpTradeLocal` when it resolves. -/
structure PumpSellFill where
  signature : String
  exitPriceUsd : Option JsNum
deriving DecidableEq, Repr

/-- Environment of one `executeBuy` call: the swap outcome and the spot
price the oracle would report (`null` on failure). -/
structure BuyEnv where
  swap : Except String SwapResult
  spot : Option JsNum
deriving Repr

/-- Environment of one `executeSell` call. -/
structure SellEnv where
  pumpFallbackFlag : Bool
  pumpSell : Except String PumpSellFill
  balance : Int
  swap : Except String SwapResult
deriving Repr

/-- The fill `executeBuy` returns. -/
structure BuyFill where
  ok : Bool
  mode : Option String
  txid : Option String
  entryPriceUsd : Option JsNum
  qtyAtoms : Option Int
  decimals : Option Int
  strategy : Option String
deriving DecidableEq, Repr

/-- The fill `executeSell` returns. -/
structure SellFill where
  ok : Bool
  mode : Option String
  txid : Option String
deriving DecidableEq, Repr

/-- The fixed paper-mode buy fill:
`{ ok: true, mode: 'paper', txid: null, entryPriceUsd: null, qtyAtoms: null, decimals: null }`. -/
def paperBuyFill : BuyFill :=
  { ok := true, mode := some "paper", txid := none, entryPriceUsd := none
    qtyAtoms := none, decimals := none, strategy := none }

/-- The fixed paper-mode sell fill: `{ ok: true, mode: 'paper', txid: null }`. -/
def paperSellFill : SellFill :=
  { ok := true, mode := some "paper", txid := none }

/-- `executeBuy` from `executor.js`: paper mode returns the fixed paper fill
before touching anything; live mode loads the signer, performs the swap,
prefers the swap-derived entry price and falls back to the oracle. -/
def executeBuy (cfg : ExecCfg) (mint : String) (env : BuyEnv) :
    Except String BuyFill × List Effect :=
  if ¬ isLive cfg then
    (.ok paperBuyFill, [])
  else
    let swapCall : Effect :=
      .swapEff "buy" SOL_MINT mint (toLamports cfg.buySolAmount)
    match env.swap with
    | .error e => (.error e, [.signerEff, swapCall])
    | .ok r =>
      match r.priceUsd with
      | some (.fin q) =>
        (.ok { ok := true, mode := none, txid := some r.signature
               entryPriceUsd := some (.fin q), qtyAtoms := r.received
               decimals := none, strategy := r.strategy },
         [.signerEff, swapCall])
      | _ =>
        let entry : Option JsNum :=
          match env.spot with
          | some (.fin q) => some (.fin q)
          | _ => none
        (.ok { ok := true, mode := none, txid := some r.signature
               entryPriceUsd := entry, qtyAtoms := r.received
               decimals := none, strategy := r.strategy },
         [.signerEff, swapCall, .oracleEff mint])

/-- `executeSell` from `executor.js`: paper mode returns the fixed paper
fill; live mode prefers the pump venue for pump-suffixed mints (or when the
fallback flag is set), falling through to the aggregator with on-chain
quantity resolution when no quantity was supplied. -/
def executeSell (cfg : ExecCfg) (mint : String) (qty : Option Int)
    (sellAll : Bool) (percent : Option String) (env : SellEnv) :
    Except String SellFill × List Effect :=
  if ¬ isLive cfg then
    (.ok paperSellFill, [])
  else
    let shouldUsePump := mint.endsWith "pump" || env.pumpFallbackFlag
    let pct := if sellAll then "100%" else jsOrStr percent "100%"
    let pumpEffs : List Effect :=
      if shouldUsePump then [.pumpSellEff mint pct] else []
    match (if shouldUsePump then some env.pumpSell else none) with
    | some (.ok f) =>
      (.ok { ok := true, mode := none, txid := some f.signature },
       [.signerEff] ++ pumpEffs ++ [.notifyEff])
    | _ =>
      -- pump path absent or failed: aggregator path
      match qty with
      | some q =>
        (match env.swap with
         | .error e =>
             (.error e,
              [.signerEff] ++ pumpEffs ++ [.swapEff "sell" mint SOL_MINT q])
         | .ok r =>
             (.ok { ok := true, mode := none, txid := some r.signature },
              [.signerEff] ++ pumpEffs
                ++ [.swapEff "sell" mint SOL_MINT q, .notifyEff]))
      | none =>
        if env.balance = 0 then
          (.error "no tokens available to sell (balance 0)",
           [.signerEff] ++ pumpEffs ++ [.balanceEff mint])
        else
          (match env.swap with
           | .error e =>
               (.error e,
                [.signerEff] ++ pumpEffs
                  ++ [.balanceEff mint,
                      .swapEff "sell" mint SOL_MINT env.balance])
           | .ok r =>
               (.ok { ok := true, mode := none, txid := some r.signature },
                [.signerEff] ++ pumpEffs
                  ++ [.balanceEff mint,
                      .swapEff "sell" mint SOL_MINT env.balance, .notifyEff]))

/-- Paper-mode config and an environment whose oracle knows a price, for the
counterexample. -/
def paperCfg : ExecCfg :=
  { tradeMode := "paper", buySolAmount := 1/100 }

/-- Buy environment whose oracle reports a spot price of 2 USD. -/
def oracleEnv : BuyEnv :=
  { swap := .error "unused in paper mode", spot := some (.fin 2) }

/-- **C7 counterexample.** In paper mode `executeBuy` returns the *fixed*
fill `{ok, mode:'paper', txid:null, entryPriceUsd:null, qtyAtoms:null,
decimals:null}` without consulting the oracle: even with an oracle spot
price of 2 USD available, the returned `entryPriceUsd` is `null`, so the
fill is not "synthesized from oracle prices" as claimed (the network-free
half of the claim does hold: the effect trace is empty). -/
theorem C7_counterexample :
    (executeBuy paperCfg "MINT" oracleEnv).1 = .ok paperBuyFill
    ∧ paperBuyFill.entryPriceUsd = none
    ∧ oracleEnv.spot = some (.fin 2)
    ∧ (executeBuy paperCfg "MINT" oracleEnv).2 = [] :=
  ⟨rfl, rfl, rfl, rfl⟩

/-- **C7 (amended).** Paper mode is network-free with a *fixed* synthesized
fill: whenever `trade_mode` is not live, `executeBuy` and `executeSell`
return `{ok:true, mode:'paper', txid:null}` fills (with null price/quantity
fields) and perform no external action at all — no signer load, no
swap-router call, no venue call, no balance lookup, no oracle query, no
broadcast — leaving all external state unchanged.  The fill is not derived
from oracle prices. -/
theorem C7_paper_mode_network_free
    (cfg : ExecCfg) (mint : String) (benv : BuyEnv) (senv : SellEnv)
    (qty : Option Int) (sellAll : Bool) (percent : Option String)
    (h : isLive cfg = false) :
    executeBuy cfg mint benv = (.ok paperBuyFill, [])
    ∧ executeSell cfg mint qty sellAll percent senv
        = (.ok paperSellFill, []) := by
  constructor
  · unfold executeBuy
    rw [h]
    simp
  · unfold executeSell
    rw [h]
    simp

theorem C7_witness :
    executeBuy paperCfg "MINTpump" oracleEnv = (.ok paperBuyFill, [])
    ∧ executeSell paperCfg "MINTpump" none true none
        { pumpFallbackFlag := true, pumpSell := .error "unused"
          balance := 0, swap := .error "unused" }
        = (.ok paperSellFill, []) :=
  C7_paper_mode_network_free paperCfg "MINTpump" oracleEnv
    { pumpFallbackFlag := true, pumpSell := .error "unused"
      balance := 0, swap := .error "unused" }
    none true none (by decide)

/-! ## Pump-portal venue client (`src/pumpPortalClient.js`)

`buyViaPumpTradeLocal` signs and broadcasts the venue-built transaction,
then reconstructs the fill on the endpoint that confirmed it: first from the
confirmed transaction's pre/post token balances (retried over the
confirmed/finalized tiers), then — whenever that yields zero — by polling
the wallet's parsed token accounts on the same endpoint.  The model starts
from the confirmed broadcast (the claim is conditioned on a confirmed buy):
`txInfo` is `getTxWithMeta`'s result (`none` after both meta retry tiers),
`poll` is `pollWalletBalanceForMint`'s result (`none` after both polling
tiers; the source only ever returns a positive balance). -/

/-- One entry of `meta.preTokenBalances` / `meta.postTokenBalances`. -/
structure TokenBal where
  mint : String
  owner : Option String
  uiOwner : Option String
  amount : Nat
  decimals : Option Nat
deriving DecidableEq, Repr

/-- Pre/post balances of the confirmed transaction. -/
structure TxMeta where
  pre : List TokenBal
  post : List TokenBal
deriving DecidableEq, Repr

/-- The entry predicate of the reconstruction:
`b.mint === outputMint && (b.owner === owner || b.uiTokenAmount?.owner === owner)`. -/
def balMatch (owner outputMint : String) (b : TokenBal) : Bool :=
  b.mint == outputMint && (b.owner == some owner || b.uiOwner == some owner)

/-- The meta-based reconstruction: `(qtyAtoms, decimals)` computed from the
`(owner, mint)` rows of the pre/post balances, clamping a non-positive
difference to zero. -/
def metaQtyDec (owner outputMint : String) (meta : TxMeta) : Nat × Nat :=
  let postEntry := meta.post.find? (balMatch owner outputMint)
  let preEntry := meta.pre.find? (balMatch owner outputMint)
  if postEntry.isSome || preEntry.isSome then
    let dec := ((postEntry.bind TokenBal.decimals).or
      (preEntry.bind TokenBal.decimals)).getD 9
    let preAmt := (preEntry.map TokenBal.amount).getD 0
    let postAmt := (postEntry.map TokenBal.amount).getD preAmt
    (if postAmt > preAmt then postAmt - preAmt else 0, dec)
  else (0, 9)

/-- What `buyViaPumpTradeLocal` returns. -/
structure PumpBuyResult where
  signature : String
  qtyAtoms : Option Nat
  decimals : Nat
  entryPriceUsd : Option JsNum
  strategy : String
  endpointUsed : String
deriving DecidableEq, Repr

/-- `buyViaPumpTradeLocal` from the confirmed broadcast onward: meta-based
reconstruction, wallet-balance fallback whenever it produced zero, price
derivation `solUsd × amountSol / (qtyAtoms / 10^decimals)` when a positive
quantity and a finite native price are available, and the signature returned
unconditionally. -/
def buyViaPumpTradeLocal (owner outputMint : String) (amountSol : ℚ)
    (signature endpointUsed : String) (txInfo : Option TxMeta)
    (poll : Option (Nat × Nat)) (solUsd : Option JsNum) : PumpBuyResult :=
  let md : Nat × Nat :=
    match txInfo with
    | some meta => metaQtyDec owner outputMint meta
    | none => (0, 9)
  let qd : Nat × Nat :=
    if md.1 = 0 then
      match poll with
      | some (amt, dec) => (amt, dec)
      | none => (0, md.2)
    else md
  let entry : Option JsNum :=
    if 0 < qd.1 then
      match solUsd with
      | some (.fin su) =>
          some (.fin (su * amountSol / ((qd.1 : ℚ) / (10 : ℚ) ^ qd.2)))
      | _ => none
    else none
  { signature := signature
    qtyAtoms := if 0 < qd.1 then some qd.1 else none
    decimals := qd.2
    entryPriceUsd := entry
    strategy := "pump-trade-local"
    endpointUsed := endpointUsed }

/-- Meta whose `(owner, mint)` post balance equals its pre balance — a
confirmed transaction that left the balance at 5 atoms. -/
def c8Meta : TxMeta :=
  { pre := [{ mint := "M", owner := some "O", uiOwner := none
              amount := 5, decimals := some 6 }]
    post := [{ mint := "M", owner := some "O", uiOwner := none
               amount := 5, decimals := some 6 }] }

/-- **C8 counterexample.** The claim says `received_atoms = max(0, post − pre)`
from the confirmed meta.  With post = pre = 5 that maximum is 0, but the
code treats a zero meta difference as "not reconstructed", falls through to
wallet polling, and — when polling also finds nothing — returns
`received_atoms = null`, never the claimed 0 (the signature is still
returned). -/
theorem C8_counterexample :
    (buyViaPumpTradeLocal "O" "M" 1 "SIG" "EP" (some c8Meta) none none).qtyAtoms
        = none
    ∧ (buyViaPumpTradeLocal "O" "M" 1 "SIG" "EP" (some c8Meta) none
        none).qtyAtoms ≠ some (max 0 (5 - 5))
    ∧ (buyViaPumpTradeLocal "O" "M" 1 "SIG" "EP" (some c8Meta) none
        none).signature = "SIG" := by
  refine ⟨rfl, ?_, rfl⟩
  decide

/-- **C8 (amended).** Venue-path fill reconstruction: (a) the signature is
returned in every case; (b) when the confirmed meta has a post row for
`(owner, mint)` whose amount strictly exceeds the pre amount (0 when no pre
row), `received_atoms` equals that difference — which is `max(0, post−pre)`;
(c) when the meta is absent after its retry tiers and wallet polling also
finds nothing, `received_atoms` is `null`; (d) when the meta difference is
not positive, the code falls back to the polled wallet balance instead of
reporting 0. -/
theorem C8_fill_reconstruction_amended (owner outputMint : String)
    (amountSol : ℚ) (sig ep : String) (txInfo : Option TxMeta)
    (poll : Option (Nat × Nat)) (solUsd : Option JsNum) :
    (buyViaPumpTradeLocal owner outputMint amountSol sig ep txInfo poll
        solUsd).signature = sig
    ∧ (∀ meta postE, txInfo = some meta →
        meta.post.find? (balMatch owner outputMint) = some postE →
        ((meta.pre.find? (balMatch owner outputMint)).map
            TokenBal.amount).getD 0 < postE.amount →
        (buyViaPumpTradeLocal owner outputMint amountSol sig ep txInfo poll
            solUsd).qtyAtoms
          = some (postE.amount -
              ((meta.pre.find? (balMatch owner outputMint)).map
                TokenBal.amount).getD 0))
    ∧ (txInfo = none → poll = none →
        (buyViaPumpTradeLocal owner outputMint amountSol sig ep txInfo poll
            solUsd).qtyAtoms = none)
    ∧ (∀ meta amt dec, txInfo = some meta →
        (metaQtyDec owner outputMint meta).1 = 0 → poll = some (amt, dec) →
        0 < amt →
        (buyViaPumpTradeLocal owner outputMint amountSol sig ep txInfo poll
            solUsd).qtyAtoms = some amt) := by
  refine ⟨rfl, ?_, ?_, ?_⟩
  · intro meta postE hinfo hpost hlt
    subst hinfo
    have hqd : (metaQtyDec owner outputMint meta).1
        = postE.amount - ((meta.pre.find? (balMatch owner outputMint)).map
            TokenBal.amount).getD 0 := by
      unfold metaQtyDec
      rw [hpost]
      simp only [Option.isSome_some, Bool.true_or, if_pos]
      simp [hlt]
    have h0 : ¬ ((metaQtyDec owner outputMint meta).1 = 0) := by omega
    have hpos : 0 < (metaQtyDec owner outputMint meta).1 := by omega
    simp only [buyViaPumpTradeLocal]
    rw [if_neg h0, if_pos hpos, hqd]
  · intro h1 h2
    subst h1
    subst h2
    simp [buyViaPumpTradeLocal]
  · intro meta amt dec hinfo hzero hpoll hamt
    subst hinfo
    subst hpoll
    simp only [buyViaPumpTradeLocal]
    rw [if_pos hzero]
    simp [hamt]

/-- Meta for the witness: pre 2 atoms, post 7 atoms for `(O, M)`. -/
def c8MetaPos : TxMeta :=
  { pre := [{ mint := "M", owner := some "O", uiOwner := none
              amount := 2, decimals := some 6 }]
    post := [{ mint := "M", owner := some "O", uiOwner := none
               amount := 7, decimals := some 6 }] }

theorem C8_witness :
    (buyViaPumpTradeLocal "O" "M" 1 "SIG" "EP" (some c8MetaPos) none
        (some (.fin 100))).qtyAtoms
      = some (7 - (((c8MetaPos.pre.find? (balMatch "O" "M")).map
          TokenBal.amount).getD 0))
    ∧ (buyViaPumpTradeLocal "O" "M" 1 "SIG2" "EP" none none none).qtyAtoms
        = none := by
  constructor
  · exact (C8_fill_reconstruction_amended "O" "M" 1 "SIG" "EP"
      (some c8MetaPos) none (some (.fin 100))).2.1 c8MetaPos
      { mint := "M", owner := some "O", uiOwner := none
        amount := 7, decimals := some 6 }
      rfl (by decide) (by decide)
  · exact (C8_fill_reconstruction_amended "O" "M" 1 "SIG2" "EP" none none
      none).2.2.1 rfl rfl

/-! ## Watcher (`src/watcher.js`, settlement-timeout variant)

One supervision interval per open mint.  The tick body is modelled as a
pure state transformer; the oracle price, the resolved wallet balance, the
outcomes of the (up to four) `executeSell` attempts and the jitter values of
successive `nextBackoffMs` calls are supplied as inputs.  `Date.now()` is
sampled as the single instant `now` of the tick. -/

/-- Spread of a closePosition call on an open mint: the record and the new
(memory = disk) state, spelled out. -/
theorem closePosition_open_spec (st : Store) (mint : String)
    (e : Option JsNum) (r : Option String) (t : Option String) (now : Int)
    (pos : OpenPos) (h : lookupKey st.mem.opn mint = some pos) :
    ∃ record : ClosedPos,
      closePosition st mint e r t now
        = (some record,
           ⟨⟨eraseKey st.mem.opn mint, st.mem.closed ++ [record]⟩,
            ⟨eraseKey st.mem.opn mint, st.mem.closed ++ [record]⟩⟩)
      ∧ record.pos = pos ∧ record.reason = jsOrStr r "exit"
      ∧ record.exitTx = t ∧ record.tsClose = now := by
  refine ⟨{ pos := pos
            exitPriceUsd :=
              match e with
              | some (.fin q) => some (.fin q)
              | _ => none
            pnlPct :=
              match e, pos.entryPriceUsd with
              | some ev, some en => some (((ev.sub en).div en).mul (.fin 100))
              | _, _ => none
            tsClose := now
            reason := jsOrStr r "exit"
            exitTx := t }, ?_, rfl, rfl, rfl, rfl⟩
  unfold closePosition
  rw [h]

/-- The watcher configuration fields. -/
structure WatchCfg where
  takeProfitPercent : ℚ
  stopLossPercent : ℚ
  baseBackoffMs : Int
  maxBackoffMs : Int
  buySettleTimeoutMs : Int
  pricePollMs : Int
deriving DecidableEq, Repr

/-- The watcher's process-local state: the position store, the
`mint → intervalId` map with a fresh-id source, and the per-mint `exiting`,
`sellCooldownUntil` and `sellBackoffLevel` maps. -/
structure WatcherState where
  store : Store
  watchers : List (String × Nat)
  nextIv : Nat
  exiting : List String
  sellCooldownUntil : List (String × Int)
  sellBackoffLevel : List (String × Nat)
deriving Repr

/-- `startWatcher`: no-op when an interval is already registered for the
mint, otherwise register a fresh interval id. -/
def startWatcher (st : WatcherState) (mint : String) : WatcherState :=
  if (lookupKey st.watchers mint).isSome then st
  else
    { st with watchers := setKey st.watchers mint st.nextIv
              nextIv := st.nextIv + 1 }

/-- `stopWatcher`: clear the interval and drop every per-mint entry. -/
def stopWatcher (st : WatcherState) (mint : String) : WatcherState :=
  { st with watchers := eraseKey st.watchers mint
            exiting := st.exiting.filter (fun s => s ≠ mint)
            sellCooldownUntil := eraseKey st.sellCooldownUntil mint
            sellBackoffLevel := eraseKey st.sellBackoffLevel mint }

/-- `nextBackoffMs`: bump the per-mint level, exponential base×2^(n−1)
capped at the maximum, plus jitter (`Math.floor(Math.random()*250)`,
supplied as an input).  Returns the wait and the updated level map. -/
def nextBackoffMs (cfg : WatchCfg) (mint : String) (jitter : Int)
    (levels : List (String × Nat)) : Int × List (String × Nat) :=
  let n := (lookupKey levels mint).getD 0 + 1
  (min (cfg.baseBackoffMs * 2 ^ (n - 1)) cfg.maxBackoffMs + jitter,
   setKey levels mint n)

/-- JS `x >= b` where `x` may be `NaN` or infinite. -/
def JsNum.geB : JsNum → ℚ → Bool
  | .fin a, b => a ≥ b
  | .nan, _ => false
  | .inf, _ => true
  | .ninf, _ => false

/-- JS `x <= b` where `x` may be `NaN` or infinite. -/
def JsNum.leB : JsNum → ℚ → Bool
  | .fin a, b => a ≤ b
  | .nan, _ => false
  | .inf, _ => false
  | .ninf, _ => true

/-- Does the text begin with the pattern? -/
def charsBeginWith : List Char → List Char → Bool
  | [], _ => true
  | _ :: _, [] => false
  | a :: as, b :: bs => a == b && charsBeginWith as bs

/-- Does the text contain the pattern as a contiguous run? -/
def charsContain (pat : List Char) : List Char → Bool
  | [] => pat.isEmpty
  | c :: rest => charsBeginWith pat (c :: rest) || charsContain pat rest

/-- `String.prototype.includes`. -/
def strIncludes (s sub : String) : Bool :=
  charsContain sub.data s.data

/-- A sell failure as observed by the tick's catch: message and code. -/
structure SellErrInfo where
  msg : String
  code : String
deriving DecidableEq, Repr

/-- A successful `executeSell` result as read by the tick. -/
structure SellOk where
  exitPriceUsd : Option JsNum
  txid : Option String
deriving DecidableEq, Repr

/-- Output of the tick's internal retry loop. -/
structure SellLoopOut where
  filled : Option SellOk
  cooldown : List (String × Int)
  levels : List (String × Nat)
  jitters : List Int
deriving Repr

/-- The tick's internal retry loop (`for i in 0..3`): stop on the first
successful sell; on failure, rate-limit / no-route errors schedule a
backoff cooldown, a zero-balance error schedules one and aborts the loop,
anything else just retries after a sleep. -/
def sellLoop (cfg : WatchCfg) (mint : String) (now : Int) :
    List (Except SellErrInfo SellOk) → List Int →
    List (String × Int) → List (String × Nat) → SellLoopOut
  | [], js, cd, lv => ⟨none, cd, lv, js⟩
  | (.ok f) :: _, js, cd, lv => ⟨some f, cd, lv, js⟩
  | (.error e) :: rest, js, cd, lv =>
    let rl := strIncludes e.msg "429" || e.code == "RATE_LIMIT"
      || strIncludes e.msg "no route"
    let step1 : List (String × Int) × List (String × Nat) × List Int :=
      if rl then
        let bk := nextBackoffMs cfg mint (js.headD 0) lv
        (setKey cd mint (now + bk.1), bk.2, js.tail)
      else (cd, lv, js)
    if strIncludes e.msg "balance 0" || e.code == "NO_BALANCE" then
      let bk := nextBackoffMs cfg mint (step1.2.2.headD 0) step1.2.1
      ⟨none, setKey step1.1 mint (now + bk.1), bk.2, step1.2.2.tail⟩
    else
      sellLoop cfg mint now rest step1.2.2 step1.1 step1.2.1

/-- The exit-reason string (JS number formatting of the configured percent
is abbreviated by the rational's canonical print). -/
def exitReason (cfg : WatchCfg) (hitTP : Bool) : String :=
  if hitTP then "take_profit_" ++ toString cfg.takeProfitPercent ++ "%"
  else "stop_loss_" ++ toString cfg.stopLossPercent ++ "%"

/-- One tick of the watcher interval for `mint` (the settlement-timeout
variant): load the position (stop if gone), respect the cooldown, require a
finite positive price, resolve the wallet balance; a zero balance either
closes the position with `buy_failed_no_balance` (timeout elapsed) or backs
off; otherwise evaluate TP/SL, guard re-entry via `exiting`, run the sell
retry loop, and close or back off. -/
def watcherTick (cfg : WatchCfg) (mint : String) (now : Int)
    (priceUsd : Option JsNum) (balance : Nat)
    (sells : List (Except SellErrInfo SellOk)) (jitters : List Int)
    (st : WatcherState) : WatcherState :=
  match getOpenPosition st.store mint with
  | none => stopWatcher st mint
  | some pos =>
    if (lookupKey st.sellCooldownUntil mint).getD 0 > now then st
    else
      match priceUsd with
      | some (.fin q) =>
        if q ≤ 0 then st
        else
          -- change_pct = ((price − entry)/entry) × 100, with a null entry
          -- coerced to 0 by JS arithmetic
          let entryN : JsNum :=
            match pos.entryPriceUsd with
            | some v => v
            | none => .fin 0
          let change := (((JsNum.fin q).sub entryN).div entryN).mul (.fin 100)
          let hitTP := change.geB cfg.takeProfitPercent
          let hitSL := change.leB (-|cfg.stopLossPercent|)
          let shouldExit := hitTP || hitSL
          if balance = 0 then
            if now - pos.tsOpen ≥ cfg.buySettleTimeoutMs then
              let store' := (closePosition st.store mint (some (.fin q))
                (some "buy_failed_no_balance") none now).2
              let st1 := { st with store := store' }
              let st2 := stopWatcher st1 mint
              { st2 with
                  sellCooldownUntil := eraseKey st2.sellCooldownUntil mint
                  sellBackoffLevel := eraseKey st2.sellBackoffLevel mint }
            else
              let bk := nextBackoffMs cfg mint (jitters.headD 0)
                st.sellBackoffLevel
              { st with
                  sellBackoffLevel := bk.2
                  sellCooldownUntil :=
                    setKey st.sellCooldownUntil mint (now + bk.1) }
          else
            if ¬ shouldExit then st
            else if mint ∈ st.exiting then st
            else
              let lo := sellLoop cfg mint now (sells.take 4) jitters
                st.sellCooldownUntil st.sellBackoffLevel
              match lo.filled with
              | none =>
                let bk := nextBackoffMs cfg mint (lo.jitters.headD 0) lo.levels
                { st with
                    exiting := (st.exiting ++ [mint]).filter (fun s => s ≠ mint)
                    sellBackoffLevel := bk.2
                    sellCooldownUntil := setKey lo.cooldown mint (now + bk.1) }
              | some f =>
                -- resetBackoff, close, drop the exiting flag, stop the watcher
                let exitP : Option JsNum :=
                  match f.exitPriceUsd with
                  | some v => some v
                  | none => some (.fin q)
                let store' := (closePosition st.store mint exitP
                  (some (exitReason cfg hitTP)) (strTruthy f.txid) now).2
                stopWatcher
                  { st with
                      store := store'
                      exiting := (st.exiting ++ [mint]).filter (fun s => s ≠ mint)
                      sellCooldownUntil := eraseKey lo.cooldown mint
                      sellBackoffLevel := eraseKey lo.levels mint }
                  mint
      | _ => st

/-- **C6.** Settlement timeout: on any watcher tick that reaches the balance
check (position open, cooldown expired, finite positive price) and resolves
a zero balance — if `now − ts_open ≥ buy_settle_timeout_ms` the position is
closed with reason `buy_failed_no_balance` and `exit_tx = null` and the
watcher is stopped; if the timeout has not elapsed the tick schedules the
next backoff as the mint's cooldown and returns with the position (and the
watcher) untouched. -/
theorem C6_settlement_timeout (cfg : WatchCfg) (mint : String) (now : Int)
    (q : ℚ) (sells : List (Except SellErrInfo SellOk)) (jitters : List Int)
    (st : WatcherState) (pos : OpenPos)
    (hpos : getOpenPosition st.store mint = some pos)
    (hcool : (lookupKey st.sellCooldownUntil mint).getD 0 ≤ now)
    (hq : 0 < q) :
    (now - pos.tsOpen ≥ cfg.buySettleTimeoutMs →
      lookupKey (watcherTick cfg mint now (some (.fin q)) 0 sells jitters
          st).store.mem.opn mint = none
      ∧ (∃ record : ClosedPos,
          (watcherTick cfg mint now (some (.fin q)) 0 sells jitters
              st).store.mem.closed = st.store.mem.closed ++ [record]
          ∧ record.pos = pos
          ∧ record.reason = "buy_failed_no_balance"
          ∧ record.exitTx = none)
      ∧ lookupKey (watcherTick cfg mint now (some (.fin q)) 0 sells jitters
          st).watchers mint = none)
    ∧ (now - pos.tsOpen < cfg.buySettleTimeoutMs →
      (watcherTick cfg mint now (some (.fin q)) 0 sells jitters st).store
          = st.store
      ∧ getOpenPosition (watcherTick cfg mint now (some (.fin q)) 0 sells
          jitters st).store mint = some pos
      ∧ lookupKey (watcherTick cfg mint now (some (.fin q)) 0 sells jitters
          st).sellCooldownUntil mint
          = some (now + (nextBackoffMs cfg mint (jitters.headD 0)
              st.sellBackoffLevel).1)
      ∧ (watcherTick cfg mint now (some (.fin q)) 0 sells jitters st).watchers
          = st.watchers) := by
  have hpos' : lookupKey st.store.mem.opn mint = some pos := hpos
  constructor
  · intro htime
    obtain ⟨record, hcp, hrpos, hrreason, hrexit, _⟩ :=
      closePosition_open_spec st.store mint (some (.fin q))
        (some "buy_failed_no_balance") none now pos hpos'
    have hred : watcherTick cfg mint now (some (.fin q)) 0 sells jitters st
        = { store := (closePosition st.store mint (some (.fin q))
              (some "buy_failed_no_balance") none now).2
            watchers := eraseKey st.watchers mint
            nextIv := st.nextIv
            exiting := st.exiting.filter (fun s => s ≠ mint)
            sellCooldownUntil :=
              eraseKey (eraseKey st.sellCooldownUntil mint) mint
            sellBackoffLevel :=
              eraseKey (eraseKey st.sellBackoffLevel mint) mint } := by
      simp only [watcherTick, hpos]
      rw [if_neg (not_lt.mpr hcool)]
      rw [if_neg (not_le.mpr hq)]
      rw [if_pos htime]
      rfl
    rw [hred]
    refine ⟨?_, ⟨record, ?_, hrpos, ?_, hrexit⟩, ?_⟩
    · simp only [hcp]
      exact lookupKey_eraseKey_self st.store.mem.opn mint
    · simp only [hcp]
    · rw [hrreason]
      decide
    · exact lookupKey_eraseKey_self st.watchers mint
  · intro htime
    have hred : watcherTick cfg mint now (some (.fin q)) 0 sells jitters st
        = { st with
            sellBackoffLevel :=
              (nextBackoffMs cfg mint (jitters.headD 0) st.sellBackoffLevel).2
            sellCooldownUntil :=
              setKey st.sellCooldownUntil mint
                (now + (nextBackoffMs cfg mint (jitters.headD 0)
                  st.sellBackoffLevel).1) } := by
      simp only [watcherTick, hpos]
      rw [if_neg (not_lt.mpr hcool)]
      rw [if_neg (not_le.mpr hq)]
      rw [if_neg (not_le.mpr htime)]
      rfl
    rw [hred]
    exact ⟨rfl, hpos, lookupKey_setKey_self st.sellCooldownUntil mint _, rfl⟩

/-- The open position of the C6 scenario: opened at t = 1000 ms. -/
def c6Pos : OpenPos :=
  { mint := "M", wallet := some "W", entryPriceUsd := some (.fin 1)
    qtyAtoms := none, decimals := none, qty := none, solSpent := none
    tsOpen := 1000, sourceTx := some "S", mode := "live" }

/-- Watcher state supervising that position. -/
def c6State : WatcherState :=
  { store := ⟨⟨[("M", c6Pos)], []⟩, ⟨[("M", c6Pos)], []⟩⟩
    watchers := [("M", 0)], nextIv := 1, exiting := []
    sellCooldownUntil := [], sellBackoffLevel := [] }

/-- Watcher configuration with the default settle timeout of 45000 ms. -/
def c6Cfg : WatchCfg :=
  { takeProfitPercent := 20, stopLossPercent := 10, baseBackoffMs := 1500
    maxBackoffMs := 60000, buySettleTimeoutMs := 45000, pricePollMs := 2000 }

theorem C6_witness :
    lookupKey (watcherTick c6Cfg "M" 50000 (some (.fin 2)) 0 [] []
        c6State).store.mem.opn "M" = none
    ∧ lookupKey (watcherTick c6Cfg "M" 50000 (some (.fin 2)) 0 [] []
        c6State).watchers "M" = none
    ∧ (watcherTick c6Cfg "M" 30000 (some (.fin 2)) 0 [] [] c6State).store
        = c6State.store :=
  ⟨((C6_settlement_timeout c6Cfg "M" 50000 2 [] [] c6State c6Pos
      (by decide) (by decide) (by decide)).1 (by decide)).1,
   ((C6_settlement_timeout c6Cfg "M" 50000 2 [] [] c6State c6Pos
      (by decide) (by decide) (by decide)).1 (by decide)).2.2,
   ((C6_settlement_timeout c6Cfg "M" 30000 2 [] [] c6State c6Pos
      (by decide) (by decide) (by decide)).2 (by decide)).1⟩

/-- **C10.** `startWatcher` is idempotent: a second call for a mint that
already has a registered watcher is a no-op, so (given distinct keys, as
always holds) at most one supervision interval exists per mint at any time;
`stopWatcher` removes the mint's entry, after which `startWatcher` registers
a fresh watcher (the next interval id). -/
theorem C10_startWatcher_idempotent (st : WatcherState) (mint : String) :
    (∀ iv, lookupKey st.watchers mint = some iv → startWatcher st mint = st)
    ∧ (KeysNodup st.watchers →
        KeysNodup (startWatcher st mint).watchers
        ∧ KeysNodup (stopWatcher st mint).watchers
        ∧ ∀ m, ((startWatcher st mint).watchers.countP
            (fun p => p.1 == m)) ≤ 1)
    ∧ lookupKey (stopWatcher st mint).watchers mint = none
    ∧ (lookupKey st.watchers mint = none →
        lookupKey (startWatcher st mint).watchers mint = some st.nextIv)
    ∧ lookupKey (startWatcher (stopWatcher st mint) mint).watchers mint
        = some (stopWatcher st mint).nextIv := by
  refine ⟨?_, ?_, ?_, ?_, ?_⟩
  · intro iv hiv
    unfold startWatcher
    rw [hiv]
    rfl
  · intro hnd
    refine ⟨?_, ?_, ?_⟩
    · unfold startWatcher
      split
      · exact hnd
      · exact keysNodup_setKey _ _ _ hnd
    · exact keysNodup_eraseKey _ _ hnd
    · intro m
      unfold startWatcher
      split
      · exact countP_le_one_of_keysNodup _ _ hnd
      · exact countP_le_one_of_keysNodup _ _ (keysNodup_setKey _ _ _ hnd)
  · exact lookupKey_eraseKey_self st.watchers mint
  · intro hno
    unfold startWatcher
    rw [hno]
    simp [lookupKey_setKey_self]
  · have hnone : lookupKey (stopWatcher st mint).watchers mint = none :=
      lookupKey_eraseKey_self st.watchers mint
    unfold startWatcher
    rw [hnone]
    simp [lookupKey_setKey_self]

/-- A watcher state with one registered interval for mint `M`. -/
def c10State : WatcherState :=
  { store := initStore, watchers := [("M", 0)], nextIv := 1, exiting := []
    sellCooldownUntil := [], sellBackoffLevel := [] }

theorem C10_witness :
    startWatcher c10State "M" = c10State
    ∧ lookupKey (stopWatcher c10State "M").watchers "M" = none
    ∧ lookupKey (startWatcher (stopWatcher c10State "M") "M").watchers "M"
        = some (stopWatcher c10State "M").nextIv :=
  ⟨(C10_startWatcher_idempotent c10State "M").1 0 (by decide),
   (C10_startWatcher_idempotent c10State "M").2.2.1,
   (C10_startWatcher_idempotent c10State "M").2.2.2.2⟩

end Trakr
